import Mathlib

/-!
Verification of the shotstack-studio-sdk core against its specification.

Source-derived embeddings: `KeyframeBuilder` (keyframe normalization, filler
insertion, value interpolation), `RichTextPlayer` (frame cache, render,
dispose), `UpdateTextContentCommand` (execute/undo).  Components whose code is
absent from the source tree (export coordinator, video frame processor,
bounded LRU cache, audio processor, progress reporting) are modelled from the
specification text and marked as such in their doc comments.
-/

namespace KB

/-- Interpolation mode of a keyframe (`"linear" | "bezier" | "constant"`,
absent field defaults to linear in `getValue`). -/
inductive Interp where
  | linear
  | bezier
  | constant
deriving DecidableEq, Repr

/-- A keyframe as used by `KeyframeBuilder`: `{start, length, from, to,
interpolation?, easing?}`.  `from` is a Lean keyword, so the field is named
`from_`.  Numeric fields are rationals (JS numbers on the values the code
manipulates).  `easing` is an opaque tag passed through to the cubic
interpolator. -/
structure Keyframe where
  start : ℚ
  length : ℚ
  from_ : ℚ
  to_ : ℚ
  interpolation : Option Interp := none
  easing : Option String := none
deriving DecidableEq, Repr

/-- Source `createNormalizedKeyframes`: sort by `start` ascending, then scale `start`
and `length` by 1000 (seconds → milliseconds). -/
def createNormalizedKeyframes (keyframes : List Keyframe) : List Keyframe :=
  (keyframes.mergeSort (fun a b => a.start ≤ b.start)).map
    (fun k => { k with start := k.start * 1000, length := k.length * 1000 })

/-- Loop body of `insertFillerKeyframes` from the second element on: emit the
current keyframe, an end filler after the last one when it stops short of
`length`, and a middle filler whenever the current keyframe does not end
exactly where the next starts.  The middle filler is built exactly as in the
source: `{ start: current.start + current.length, length: next.start,
from: current.to_, to: next.from_ }`. -/
def fillerLoop (len : ℚ) : List Keyframe → List Keyframe
  | [] => []
  | [current] =>
      if current.start + current.length < len then
        [current,
         { start := current.start + current.length,
           length := len - (current.start + current.length),
           from_ := current.to_, to_ := current.to_ }]
      else [current]
  | current :: next :: rest =>
      if current.start + current.length ≠ next.start then
        current ::
          { start := current.start + current.length, length := next.start,
            from_ := current.to_, to_ := next.from_ } ::
          fillerLoop len (next :: rest)
      else current :: fillerLoop len (next :: rest)

/-- Source `insertFillerKeyframes(keyframes, length, initialValue)`: prepend a start
filler when the first keyframe does not start at 0, then run the loop that
emits middle and end fillers. -/
def insertFillerKeyframes (keyframes : List Keyframe) (len : ℚ)
    (initialValue : ℚ := 0) : List Keyframe :=
  match keyframes with
  | [] => []
  | current :: _ =>
      (if current.start ≠ 0 then
        [{ start := 0, length := current.start, from_ := initialValue,
           to_ := current.from_ }]
      else []) ++ fillerLoop len keyframes

/-- Source `createKeyframes(value, length, initialValue)` for the two constructor
shapes: a plain number becomes the single full-length constant ramp
`{start: 0, length, from: value, to: value}`; a list is normalized and run
through the filler insertion.  (The `validateKeyframes` call only warns; it
does not alter the result.) -/
def createKeyframes (value : List Keyframe ⊕ ℚ) (len : ℚ)
    (initialValue : ℚ := 0) : List Keyframe :=
  match value with
  | .inr v => [{ start := 0, length := len, from_ := v, to_ := v }]
  | .inl kfs => insertFillerKeyframes (createNormalizedKeyframes kfs) len initialValue

/-- Source `KeyframeBuilder.getValue(time)`: find the first keyframe whose interval
`[start, start + length)` contains `time`; interpolate inside it (bezier via
the external `CurveInterpolator`, passed here as the parameter `cubic` since
its source is not part of this tree; `constant` takes `from`; default is
linear).  With no match, clamp to the last keyframe's `to` at or beyond the
total length, to the first keyframe's `from` before 0, and fall back to 1. -/
def getValue (cubic : ℚ → ℚ → ℚ → Option String → ℚ)
    (property : List Keyframe) (len : ℚ) (time : ℚ) : ℚ :=
  match property.find? (fun k =>
      decide (time ≥ k.start) && decide (time < k.start + k.length)) with
  | some keyframe =>
      let progress := (time - keyframe.start) / keyframe.length
      match keyframe.interpolation with
      | some .bezier => cubic keyframe.from_ keyframe.to_ progress keyframe.easing
      | some .constant => keyframe.from_
      | _ => keyframe.from_ + (keyframe.to_ - keyframe.from_) * progress
  | none =>
      if property.length > 0 then
        if time ≥ len then ((property.getLast?).map Keyframe.to_).getD 1
        else if time < 0 then ((property.head?).map Keyframe.from_).getD 1
        else 1
      else 1

/-- Number of keyframes of `l` whose half-open interval contains `t`. -/
def coversCount (l : List Keyframe) (t : ℚ) : ℕ :=
  (l.filter (fun k =>
    decide (t ≥ k.start) && decide (t < k.start + k.length))).length

/-- The produced list tiles `[0, len)`: the first keyframe starts at 0, each
subsequent keyframe starts exactly where the previous one ends, and the last
one ends at `len`. -/
def tiles (l : List Keyframe) (len : ℚ) : Prop :=
  (l.head?.map Keyframe.start = some 0) ∧
  l.Chain' (fun a b => a.start + a.length = b.start) ∧
  ((l.getLast?.map (fun k => k.start + k.length)) = some len)

instance (l : List Keyframe) (len : ℚ) : Decidable (tiles l len) := by
  unfold tiles; infer_instance

end KB

namespace RTP

/-- JS `Map` lookup on an insertion-ordered association list. -/
def mapGet? (m : List (ℤ × ℕ)) (k : ℤ) : Option ℕ :=
  (m.find? (fun e => decide (e.1 = k))).map Prod.snd

/-- JS `Map.has`. -/
def mapHas (m : List (ℤ × ℕ)) (k : ℤ) : Bool :=
  (mapGet? m k).isSome

/-- JS `Map.set`: replace in place when the key exists, otherwise append
(insertion order is preserved, as `Map.values()` iterates it). -/
def mapSet (m : List (ℤ × ℕ)) (k : ℤ) (v : ℕ) : List (ℤ × ℕ) :=
  if mapHas m k then m.map (fun e => if e.1 = k then (k, v) else e)
  else m ++ [(k, v)]

/-- State of a `RichTextPlayer`: the nullable engine/renderer/canvas handles
are presence flags, textures are numeric identities (`nextTex` is the next
fresh one `pixi.Texture.from` would mint), `sprite` records the sprite's
current texture when the sprite exists, `cachedFrames` is the
quantized-time → texture map, and `destroyLog` records every
`texture.destroy()` call in order. -/
structure State where
  textEngine : Bool
  renderer : Bool
  canvas : Bool
  texture : Option ℕ
  sprite : Option ℕ
  lastRenderedTime : ℚ
  cachedFrames : List (ℤ × ℕ)
  cacheEnabled : Bool
  nextTex : ℕ
  destroyLog : List ℕ
deriving DecidableEq, Repr

/-- Source `RichTextPlayer.renderFrame(timeSeconds)` on the success path of its
`try` block: bail out with no engine/renderer/canvas; serve a cache hit
(`cacheKey = Math.floor(timeSeconds * 30)`) by retargeting the sprite; on a
miss render a fresh texture, destroying the previously held texture when a
sprite already exists and the new key is not cached, cache the new texture
while the map holds fewer than 100 entries and caching is enabled, and record
the render time. -/
def renderFrame (timeSeconds : ℚ) (s : State) : State :=
  if ¬ (s.textEngine ∧ s.renderer ∧ s.canvas) then s
  else
    let cacheKey := ⌊timeSeconds * 30⌋
    if s.cacheEnabled ∧ mapHas s.cachedFrames cacheKey then
      { s with sprite := if s.sprite.isSome then mapGet? s.cachedFrames cacheKey
                         else s.sprite }
    else
      let tex := s.nextTex
      let destroysOld :=
        s.sprite.isSome ∧ s.texture.isSome ∧ ¬ mapHas s.cachedFrames cacheKey
      { s with
        sprite := some tex
        texture := some tex
        nextTex := s.nextTex + 1
        cachedFrames :=
          if s.cacheEnabled ∧ s.cachedFrames.length < 100 then
            mapSet s.cachedFrames cacheKey tex
          else s.cachedFrames
        destroyLog :=
          s.destroyLog ++ (if destroysOld then [s.texture.getD 0] else [])
        lastRenderedTime := timeSeconds }

/-- Source `RichTextPlayer.dispose()`: destroy every cached texture, clear the
cache, then destroy the held texture when it is non-null and the (already
cleared) cache does not contain the key of the last rendered time, null out
texture/sprite/canvas/engine/renderer.  (`sprite.destroy()` does not destroy
the sprite's texture.) -/
def dispose (s : State) : State :=
  let afterCache := s.destroyLog ++ s.cachedFrames.map Prod.snd
  let cleared : List (ℤ × ℕ) := []
  let key := ⌊s.lastRenderedTime * 30⌋
  let finalLog :=
    if s.texture.isSome ∧ ¬ mapHas cleared key then
      afterCache ++ [s.texture.getD 0]
    else afterCache
  { textEngine := false, renderer := false, canvas := false,
    texture := none, sprite := none,
    lastRenderedTime := s.lastRenderedTime,
    cachedFrames := cleared,
    cacheEnabled := s.cacheEnabled,
    nextTex := s.nextTex,
    destroyLog := finalLog }

/-- Destroy calls issued by `dispose` itself, i.e. the tail `dispose`
appends to the destroy log. -/
def disposeDestroys (s : State) : List ℕ :=
  (dispose s).destroyLog.drop s.destroyLog.length

/-- The state of a freshly loaded player with caching enabled, right before
`load()` runs `renderFrame(0)`: engine, renderer and canvas are present and
nothing has been rendered or cached yet. -/
def loadedState : State :=
  { textEngine := true, renderer := true, canvas := true,
    texture := none, sprite := none, lastRenderedTime := -1,
    cachedFrames := [], cacheEnabled := true, nextTex := 0, destroyLog := [] }

end RTP

namespace UTC

/-- A clip asset: either one carrying a `text` field (plus its remaining
payload, abstracted as a number) or one without a `text` field. -/
inductive Asset where
  | withText (text : String) (rest : ℕ)
  | noText (rest : ℕ)
deriving DecidableEq, Repr

/-- The `clipConfiguration`: the optional asset plus the rest of the clip's
configuration, abstracted as a number. -/
structure ClipConfiguration where
  asset : Option Asset
  rest : ℕ
deriving DecidableEq, Repr

/-- The player the command targets: its configuration, the optional text
sprite (`(this.clip as any).text`, holding the string it displays), and its
layer. -/
structure PlayerState where
  clipConfiguration : ClipConfiguration
  textSprite : Option String
  layer : ℕ
deriving DecidableEq, Repr

/-- The fields `UpdateTextContentCommand` stores: the new text and the
`previousText` captured in the constructor (`asset.text` when the asset has a
`text` field, `""` otherwise). -/
structure Command where
  newText : String
  previousText : String
deriving DecidableEq, Repr

/-- The constructor of `UpdateTextContentCommand`. -/
def mkCommand (clip : PlayerState) (newText : String) : Command :=
  { newText
    previousText :=
      match clip.clipConfiguration.asset with
      | some (.withText t _) => t
      | _ => "" }

/-- Shared body of `execute`/`undo`: when the asset exists and has a `text`
field, write `t` into `asset.text` and into the text sprite when present
(`positionText` only re-lays the sprite out); otherwise do nothing. -/
def setText (clip : PlayerState) (t : String) : PlayerState :=
  match clip.clipConfiguration.asset with
  | some (.withText _ r) =>
      { clip with
        clipConfiguration :=
          { clip.clipConfiguration with asset := some (.withText t r) }
        textSprite := clip.textSprite.map (fun _ => t) }
  | _ => clip

/-- Source `UpdateTextContentCommand.execute(context)`: a missing context returns
immediately; otherwise write `newText` (the `setUpdatedClip`/`emitEvent`
calls mutate the context, not the clip). -/
def execute (cmd : Command) (context : Option Unit) (clip : PlayerState) :
    PlayerState :=
  match context with
  | none => clip
  | some _ => setText clip cmd.newText

/-- Source `UpdateTextContentCommand.undo(context)`: symmetric to `execute`,
writing back `previousText`. -/
def undo (cmd : Command) (context : Option Unit) (clip : PlayerState) :
    PlayerState :=
  match context with
  | none => clip
  | some _ => setText clip cmd.previousText

end UTC

namespace ExportM

/-- Modelled from the spec: the Bounded Cache is missing from the source
tree (`SimpleLRUCache` in `src/core/export/`); per §2 it is a "generic
fixed-capacity key→value store with least-recently-used eviction".  Entries
are kept most-recently-used first. -/
structure BoundedCache (K V : Type) where
  capacity : ℕ
  entries : List (K × V)
deriving Repr

/-- Modelled from the spec: an empty bounded cache of the given capacity. -/
def BoundedCache.emptyCache (K V : Type) (cap : ℕ) : BoundedCache K V :=
  { capacity := cap, entries := [] }

/-- Modelled from the spec: cache lookup; a hit returns the value and marks
the entry most-recently-used (moves it to the front). -/
def getCache {K V : Type} [DecidableEq K] (c : BoundedCache K V) (k : K) :
    Option V × BoundedCache K V :=
  match c.entries.find? (fun e => decide (e.1 = k)) with
  | some e =>
      (some e.2,
       { capacity := c.capacity,
         entries := (k, e.2) :: c.entries.filter (fun e => decide (e.1 ≠ k)) })
  | none => (none, c)

/-- Modelled from the spec: cache insertion; the new entry becomes
most-recently-used and, on overflow, the least-recently-used entry (the last
one) is evicted. -/
def putCache {K V : Type} [DecidableEq K] (c : BoundedCache K V) (k : K)
    (v : V) : BoundedCache K V :=
  { capacity := c.capacity,
    entries :=
      ((k, v) :: c.entries.filter (fun e => decide (e.1 ≠ k))).take c.capacity }

/-- An access-sequence step against one cache: a read or an insert. -/
inductive CacheOp (K V : Type) where
  | access (k : K)
  | insert (k : K) (v : V)

/-- Run one step of an access sequence. -/
def applyOp {K V : Type} [DecidableEq K] (c : BoundedCache K V)
    (op : CacheOp K V) : BoundedCache K V :=
  match op with
  | .access k => (getCache c k).2
  | .insert k v => putCache c k v

/-- Run an access sequence left to right. -/
def applyOps {K V : Type} [DecidableEq K] (ops : List (CacheOp K V))
    (c : BoundedCache K V) : BoundedCache K V :=
  ops.foldl applyOp c

/-- Modelled from the spec: the Video Frame Processor is missing from the
source tree (`video-frame-processor.ts`); per §4.3 it keeps a frame cache of
capacity 10 and a texture cache of capacity 5, both keyed by
`(sourceIdentity, quantize(timestamp))`, and counts of the expensive
seek / pixel-extraction / texture-build work it performs.  `nextId`
mints fresh pixel-buffer and texture identities. -/
structure FrameProcessor where
  frameCache : BoundedCache (ℕ × ℤ) ℕ
  textureCache : BoundedCache (ℕ × ℤ) ℕ
  seekCount : ℕ
  extractCount : ℕ
  textureBuildCount : ℕ
  nextId : ℕ
deriving Repr

/-- Modelled from the spec: quantization of a timestamp to a fixed grid
(1/30 s) used as a cache key. -/
def quantize (t : ℚ) : ℤ := ⌊t * 30⌋

/-- Modelled from the spec: the processor at session start — empty caches of
capacities 10 and 5 and no work done yet. -/
def initProcessor : FrameProcessor :=
  { frameCache := BoundedCache.emptyCache (ℕ × ℤ) ℕ 10,
    textureCache := BoundedCache.emptyCache (ℕ × ℤ) ℕ 5,
    seekCount := 0, extractCount := 0, textureBuildCount := 0, nextId := 0 }

/-- Modelled from the spec (§4.3 request algorithm): on a frame-cache hit
skip extraction; on a miss seek + extract (counted) and insert with LRU
eviction; then reuse a cached texture or build one (counted) and insert with
LRU eviction. -/
def requestFrame (p : FrameProcessor) (src : ℕ) (t : ℚ) : FrameProcessor :=
  let key : ℕ × ℤ := (src, quantize t)
  let fhit := getCache p.frameCache key
  let p1 :=
    match fhit.1 with
    | some _ => { p with frameCache := fhit.2 }
    | none =>
        { p with
          frameCache := putCache fhit.2 key p.nextId,
          seekCount := p.seekCount + 1,
          extractCount := p.extractCount + 1,
          nextId := p.nextId + 1 }
  let thit := getCache p1.textureCache key
  match thit.1 with
  | some _ => { p1 with textureCache := thit.2 }
  | none =>
      { p1 with
        textureCache := putCache thit.2 key p1.nextId,
        textureBuildCount := p1.textureBuildCount + 1,
        nextId := p1.nextId + 1 }

/-- Run a sequence of frame requests `(sourceIdentity, timestamp)`. -/
def runRequests (reqs : List (ℕ × ℚ)) (p : FrameProcessor) : FrameProcessor :=
  reqs.foldl (fun q r => requestFrame q r.1 r.2) p

end ExportM

namespace ExportM

/-- Modelled from the spec: the export phases of §4.1 in their fixed order
(the coordinator `export-coordinator.ts` is missing from the source tree).
`audioPhase` is the spec's "audio" phase, `finalizePhase` its "finalize". -/
inductive PhaseName where
  | init
  | config
  | videoPrep
  | outputSetup
  | audioPhase
  | frameLoop
  | finalizePhase
deriving DecidableEq, Repr

/-- Modelled from the spec: the ordered phase list of §4.1. -/
def phaseOrder : List PhaseName :=
  [.init, .config, .videoPrep, .outputSetup, .audioPhase, .frameLoop,
   .finalizePhase]

/-- Modelled from the spec (§3 `PlayerSubstitutionRecord`, §4.3): a clip as
the coordinator sees it — its live texture/source references, its
suspend-updates flag, its optional substitution record
`(originalTextureRef, originalSourceRef)` created on first substitution, and
whether it is classified as video. -/
structure ClipState where
  textureRef : ℕ
  sourceRef : ℕ
  suspendUpdates : Bool
  record : Option (ℕ × ℕ)
  isVideo : Bool
deriving DecidableEq, Repr

/-- Modelled from the spec (§4.3): substitute a static texture into a video
clip; on the first substitution persist the original texture/source
references in the record and set the suspend flag.  Non-video clips are
untouched. -/
def substituteClip (staticTex : ℕ) (c : ClipState) : ClipState :=
  if c.isVideo then
    { c with
      textureRef := staticTex
      suspendUpdates := true
      record :=
        match c.record with
        | some r => some r
        | none => some (c.textureRef, c.sourceRef) }
  else c

/-- Modelled from the spec (§4.3 restoration): for a clip with a record,
restore the original texture/source references, clear the suspend flag and
drop the record; without a record do nothing — hence repeated calls are
no-ops. -/
def restoreClip (c : ClipState) : ClipState :=
  match c.record with
  | some r =>
      { c with
        textureRef := r.1
        sourceRef := r.2
        suspendUpdates := false
        record := none }
  | none => c

/-- Modelled from the spec (§3 `ExportStateSave`, §4.1): editor-observable
state is abstracted as one number; the session state carries the saved copy,
the export-mode flag, the progress surface, the playback-updates-paused
flag, the clips, and a counter of cleanup executions. -/
structure SessionState where
  editorObservable : ℕ
  savedState : Option ℕ
  exportMode : Bool
  progressSurface : Bool
  playbackPaused : Bool
  clips : List ClipState
  cleanupRuns : ℕ
deriving DecidableEq, Repr

/-- Modelled from the spec (§4.1 "On acceptance"): mark export mode, save
the `ExportStateSave`, pause playback, create the progress surface. -/
def acceptSession (s : SessionState) : SessionState :=
  { s with
    exportMode := true
    savedState := some s.editorObservable
    playbackPaused := true
    progressSurface := true }

/-- Modelled from the spec: the state mutation a phase performs on the
editor-side state; only the frame loop mutates it (it substitutes static
textures into the video clips).  The other phases act on external
collaborators. -/
def phaseEffect (staticTex : ℕ) (p : PhaseName) (s : SessionState) :
    SessionState :=
  match p with
  | .frameLoop => { s with clips := s.clips.map (substituteClip staticTex) }
  | _ => s

/-- Modelled from the spec: run the phases in order; the `oracle` says
whether a phase succeeds, and the first failing phase aborts the run (its
failure is tagged and re-raised; no later phase executes). -/
def runPhases (staticTex : ℕ) (oracle : PhaseName → Bool) :
    List PhaseName → SessionState → SessionState
  | [], s => s
  | p :: ps, s =>
      if oracle p then runPhases staticTex oracle ps (phaseEffect staticTex p s)
      else s

/-- Modelled from the spec (§4.1 scoped cleanup): restore the saved
`ExportStateSave`, clear export mode, remove the progress surface, resume
playback updates, restore every substituted clip, and count the run. -/
def cleanup (s : SessionState) : SessionState :=
  { editorObservable := s.savedState.getD s.editorObservable
    savedState := none
    exportMode := false
    progressSurface := false
    playbackPaused := false
    clips := s.clips.map restoreClip
    cleanupRuns := s.cleanupRuns + 1 }

/-- Modelled from the spec: one export session — acceptance, the phase run
(stopping at the first failure), and the one scoped cleanup on the way out,
whatever the outcome. -/
def runSession (staticTex : ℕ) (oracle : PhaseName → Bool)
    (s : SessionState) : SessionState :=
  cleanup (runPhases staticTex oracle phaseOrder (acceptSession s))

/-- Modelled from the spec (§3 `ExportConfiguration`): {frameRate,
outputWidth, outputHeight, totalFrames, frameDurationMs}. -/
structure ExportConfiguration where
  frameRate : ℚ
  outputWidth : ℕ
  outputHeight : ℕ
  totalFrames : ℤ
  frameDurationMs : ℚ
deriving DecidableEq, Repr

/-- Modelled from the spec: the configuration built once at session start,
with `totalFrames = ceil(timelineDurationMs/1000 * frameRate)` and
`frameDurationMs = 1000/frameRate`. -/
def prepareConfig (durationMs frameRate : ℚ) (w h : ℕ) :
    ExportConfiguration :=
  { frameRate
    outputWidth := w
    outputHeight := h
    totalFrames := ⌈durationMs / 1000 * frameRate⌉
    frameDurationMs := 1000 / frameRate }

/-- Modelled from the spec (§3 `AudioTrackDescriptor`): source reference,
timing, volume and the decoded input samples (already interleaved across
channels; the raw bytes stand behind the decode step, which this model takes
as given). -/
structure AudioTrackDescriptor where
  sourceRef : ℕ
  startMs : ℚ
  durationMs : ℚ
  volume : ℚ
  samples : List ℚ
deriving DecidableEq, Repr

/-- Modelled from the spec (§4.4 `processAudioSamples`): multiply every
decoded sample by `volume` (linear scale) to obtain the buffer submitted to
the audio sink. -/
def processTrackSamples (d : AudioTrackDescriptor) : List ℚ :=
  d.samples.map (fun s => d.volume * s)

/-- Modelled from the spec (§4.4): the buffers submitted to the sink, in
ascending `startMs` order, each tagged with presentation timestamp
`startMs/1000`. -/
def submittedBuffers (tracks : List AudioTrackDescriptor) :
    List (ℚ × List ℚ) :=
  (tracks.mergeSort (fun a b => a.startMs ≤ b.startMs)).map
    (fun d => (d.startMs / 1000, processTrackSamples d))

/-- Modelled from the spec (§4.1 phase weights, §4.2 step 6, §4.6): the
`(percent, phaseLabel)` reports one session with `n` frames delivers to the
Progress Reporter, in order: the weighted phase entries, then
`25 + 75·(i+1)/n` for each frame `i`, then the final `(100, finalize)`. -/
def progressReports (n : ℕ) : List (ℚ × PhaseName) :=
  [(0, .init), (0, .config), (10, .videoPrep), (15, .outputSetup),
   (20, .audioPhase)]
  ++ (List.range n).map
      (fun (i : ℕ) => ((25 : ℚ) + 75 * ((i : ℚ) + 1) / (n : ℚ), .frameLoop))
  ++ [(100, .finalizePhase)]

end ExportM

/-- C9: a `KeyframeBuilder` constructed from a single number `v` (and any
positive length) returns `v` from `getValue` at every time — inside
`[0, length)`, negative, or at/beyond the length — for every cubic
interpolator and initial value. -/
theorem getValue_single_number (cubic : ℚ → ℚ → ℚ → Option String → ℚ)
    (v len init t : ℚ) (hlen : 0 < len) :
    KB.getValue cubic (KB.createKeyframes (.inr v) len init) len t = v := by
  unfold KB.getValue KB.createKeyframes
  rcases lt_trichotomy t 0 with h | h | h
  · simp [List.find?, show ¬ (t ≥ 0) by linarith, h,
      show ¬ (t ≥ len) by linarith]
  · subst h
    simp [List.find?, hlen]
  · by_cases h2 : t < len
    · simp [List.find?, show t ≥ 0 by linarith, h2]
    · simp [List.find?, show t ≥ 0 by linarith, h2,
        show t ≥ len by linarith]

/-- Witness for C9 at `v = 7`, `len = 500`, `t = 250`. -/
theorem getValue_single_number_witness :
    (0 : ℚ) < 500 ∧
    KB.getValue (fun a _ _ _ => a) (KB.createKeyframes (.inr 7) 500 0) 500 250
      = 7 :=
  ⟨by norm_num, getValue_single_number (fun a _ _ _ => a) 7 500 0 250 (by norm_num)⟩

/-- C8: evaluating `insertFillerKeyframes` at an accepted input with an
internal gap — keyframes `[0s,1s)` and `[3s,4s)` over a 4000 ms length —
shows the middle filler's length is set to `next.start` (3000) instead of
the 2000 ms gap, so the result does not tile `[0, 4000)`: the filler spans
`[1000, 4000)`, the time 3500 lies in two keyframes, and the chain of
end-to-start adjacency is broken. -/
theorem insertFillerKeyframes_gap_not_tiling :
    KB.insertFillerKeyframes (KB.createNormalizedKeyframes
      [{ start := 0, length := 1, from_ := 0, to_ := 1 },
       { start := 3, length := 1, from_ := 2, to_ := 3 }]) 4000 0 =
      [{ start := 0, length := 1000, from_ := 0, to_ := 1 },
       { start := 1000, length := 3000, from_ := 1, to_ := 2 },
       { start := 3000, length := 1000, from_ := 2, to_ := 3 }] ∧
    KB.coversCount (KB.insertFillerKeyframes (KB.createNormalizedKeyframes
      [{ start := 0, length := 1, from_ := 0, to_ := 1 },
       { start := 3, length := 1, from_ := 2, to_ := 3 }]) 4000 0) 3500 = 2 ∧
    ¬ KB.tiles (KB.insertFillerKeyframes (KB.createNormalizedKeyframes
      [{ start := 0, length := 1, from_ := 0, to_ := 1 },
       { start := 3, length := 1, from_ := 2, to_ := 3 }]) 4000 0) 4000 := by
  refine ⟨?_, ?_, ?_⟩
  · norm_num [KB.insertFillerKeyframes, KB.fillerLoop,
      KB.createNormalizedKeyframes, List.mergeSort]
  · norm_num [KB.coversCount, KB.insertFillerKeyframes, KB.fillerLoop,
      KB.createNormalizedKeyframes, List.mergeSort, List.filter]
  · norm_num [KB.tiles, KB.insertFillerKeyframes, KB.fillerLoop,
      KB.createNormalizedKeyframes, List.mergeSort, List.chain'_cons]

/-- C3: `dispose()` on a player whose current texture was inserted into the
frame cache (here: the state right after `load()` rendered frame 0 with
caching enabled) destroys that texture twice — once in the cache loop and
once through the held-texture branch, whose cache-membership guard runs
after the cache was cleared and therefore never prevents the second
destroy. -/
theorem dispose_double_destroys_cached_texture :
    (RTP.renderFrame 0 RTP.loadedState).texture = some 0 ∧
    (RTP.renderFrame 0 RTP.loadedState).cachedFrames = [(0, 0)] ∧
    RTP.disposeDestroys (RTP.renderFrame 0 RTP.loadedState) = [0, 0] ∧
    ((RTP.disposeDestroys (RTP.renderFrame 0 RTP.loadedState)).count 0 = 2) := by
  norm_num [RTP.renderFrame, RTP.loadedState, RTP.dispose, RTP.disposeDestroys,
    RTP.mapHas, RTP.mapGet?, RTP.mapSet, List.count_cons]

/-- C10: for a clip whose asset has a `text` field and a present context,
executing an `UpdateTextContentCommand` and then undoing it restores
`asset.text` (indeed the whole asset) to its construction-time value; for a
clip without a `text` field, or with an absent context, both `execute` and
`undo` leave the clip unchanged. -/
theorem updateTextContent_execute_undo (clip : UTC.PlayerState)
    (newText : String) (context : Option Unit) :
    (∀ t r, clip.clipConfiguration.asset = some (.withText t r) →
      context.isSome →
      (UTC.undo (UTC.mkCommand clip newText) context
          (UTC.execute (UTC.mkCommand clip newText) context clip)
        ).clipConfiguration.asset = some (UTC.Asset.withText t r)) ∧
    ((∀ t r, clip.clipConfiguration.asset ≠ some (.withText t r)) →
      UTC.execute (UTC.mkCommand clip newText) context clip = clip ∧
      UTC.undo (UTC.mkCommand clip newText) context clip = clip) ∧
    (context = none →
      UTC.execute (UTC.mkCommand clip newText) context clip = clip ∧
      UTC.undo (UTC.mkCommand clip newText) context clip = clip) := by
  refine ⟨?_, ?_, ?_⟩
  · intro t r hasset hctx
    match context with
    | none => simp at hctx
    | some _ =>
        simp [UTC.execute, UTC.undo, UTC.mkCommand, UTC.setText, hasset]
  · intro hno
    match context with
    | none => exact ⟨rfl, rfl⟩
    | some _ =>
        have hset : ∀ u, UTC.setText clip u = clip := by
          intro u
          unfold UTC.setText
          match h : clip.clipConfiguration.asset with
          | none => rfl
          | some (.noText r) => rfl
          | some (.withText t r) => exact absurd h (hno t r)
        exact ⟨hset _, hset _⟩
  · intro hctx
    subst hctx
    exact ⟨rfl, rfl⟩

/-- Witness for C10 at a concrete text clip, `newText = "b"` and a present
context. -/
theorem updateTextContent_execute_undo_witness :
    (({ clipConfiguration := { asset := some (.withText "a" 4), rest := 9 },
        textSprite := some "a", layer := 1 } :
          UTC.PlayerState).clipConfiguration.asset
        = some (.withText "a" 4) ∧ (some () : Option Unit).isSome) ∧
    (UTC.undo
        (UTC.mkCommand
          { clipConfiguration := { asset := some (.withText "a" 4), rest := 9 },
            textSprite := some "a", layer := 1 } "b") (some ())
        (UTC.execute
          (UTC.mkCommand
            { clipConfiguration := { asset := some (.withText "a" 4), rest := 9 },
              textSprite := some "a", layer := 1 } "b") (some ())
          { clipConfiguration := { asset := some (.withText "a" 4), rest := 9 },
            textSprite := some "a", layer := 1 })).clipConfiguration.asset
      = some (UTC.Asset.withText "a" 4) :=
  ⟨⟨rfl, rfl⟩,
   (updateTextContent_execute_undo
      { clipConfiguration := { asset := some (.withText "a" 4), rest := 9 },
        textSprite := some "a", layer := 1 } "b" (some ())).1 "a" 4 rfl rfl⟩

/-- C5: spec-modelled export configuration — for `frameRate > 0`,
`totalFrames = ceil(durationMs/1000 * frameRate)`,
`frameDurationMs = 1000/frameRate`, and the end timestamp of frame
`totalFrames - 1` (i.e. `totalFrames * frameDurationMs`) is within one frame
duration of `durationMs`. -/
theorem prepareConfig_frame_bounds (d f : ℚ) (w h : ℕ) (hf : 0 < f) :
    (ExportM.prepareConfig d f w h).totalFrames = ⌈d / 1000 * f⌉ ∧
    (ExportM.prepareConfig d f w h).frameDurationMs = 1000 / f ∧
    |((ExportM.prepareConfig d f w h).totalFrames : ℚ) *
        (ExportM.prepareConfig d f w h).frameDurationMs - d| ≤
      (ExportM.prepareConfig d f w h).frameDurationMs := by
  refine ⟨rfl, rfl, ?_⟩
  have hne : f ≠ 0 := ne_of_gt hf
  have hpos : (0:ℚ) < 1000 / f := by positivity
  have h1 : d / 1000 * f ≤ ((⌈d / 1000 * f⌉ : ℤ) : ℚ) := Int.le_ceil _
  have h2 : ((⌈d / 1000 * f⌉ : ℤ) : ℚ) < d / 1000 * f + 1 :=
    Int.ceil_lt_add_one _
  have hx : d / 1000 * f * (1000 / f) = d := by field_simp
  simp only [ExportM.prepareConfig]
  rw [abs_le]
  constructor
  · nlinarith [mul_le_mul_of_nonneg_right h1 (le_of_lt hpos)]
  · nlinarith [mul_lt_mul_of_pos_right h2 hpos]

/-- Witness for C5 at a 2000 ms timeline at 10 fps. -/
theorem prepareConfig_frame_bounds_witness :
    (0 : ℚ) < 10 ∧
    ((ExportM.prepareConfig 2000 10 1280 720).totalFrames
        = ⌈(2000 : ℚ) / 1000 * 10⌉ ∧
      (ExportM.prepareConfig 2000 10 1280 720).frameDurationMs = 1000 / 10 ∧
      |((ExportM.prepareConfig 2000 10 1280 720).totalFrames : ℚ) *
          (ExportM.prepareConfig 2000 10 1280 720).frameDurationMs - 2000| ≤
        (ExportM.prepareConfig 2000 10 1280 720).frameDurationMs) :=
  ⟨by norm_num, prepareConfig_frame_bounds 2000 10 1280 720 (by norm_num)⟩

/-- C6: spec-modelled audio processing — with `volume ∈ [0,1]`, every sample
submitted to the sink equals `volume` times the corresponding decoded input
sample; in particular with volume `1/2` every output sample is exactly half
its input sample (the rational model is exact, hence within any
floating-point tolerance). -/
theorem processTrackSamples_volume (d : ExportM.AudioTrackDescriptor)
    (h0 : 0 ≤ d.volume) (h1 : d.volume ≤ 1) (i : ℕ)
    (hi : i < d.samples.length) :
    (ExportM.processTrackSamples d).getD i 0
        = d.volume * d.samples.getD i 0 ∧
    (d.volume = 1/2 →
      (ExportM.processTrackSamples d).getD i 0
        = (1/2) * d.samples.getD i 0) := by
  have key : (ExportM.processTrackSamples d).getD i 0
      = d.volume * d.samples.getD i 0 := by
    unfold ExportM.processTrackSamples
    rw [List.getD_eq_getElem?_getD, List.getElem?_map,
      List.getD_eq_getElem?_getD, List.getElem?_eq_getElem hi]
    simp
  exact ⟨key, fun hv => by rw [key, hv]⟩

/-- Witness for C6: a track with volume `1/2` and samples `[2, 4]` at
index 0. -/
theorem processTrackSamples_volume_witness :
    ((0:ℚ) ≤ (1:ℚ)/2 ∧ (1:ℚ)/2 ≤ 1 ∧ 0 < 2) ∧
    ((ExportM.processTrackSamples
        { sourceRef := 0, startMs := 500, durationMs := 1000,
          volume := 1/2, samples := [2, 4] }).getD 0 0
      = (1/2 : ℚ) *
        (({ sourceRef := 0, startMs := 500, durationMs := 1000,
            volume := 1/2, samples := [2, 4] } :
              ExportM.AudioTrackDescriptor).samples.getD 0 0)) :=
  ⟨by norm_num,
   (processTrackSamples_volume
      { sourceRef := 0, startMs := 500, durationMs := 1000,
        volume := 1/2, samples := [2, 4] }
      (by norm_num) (by norm_num) 0 (by norm_num)).1⟩


/-- C7: spec-modelled progress reporting — across one session with `n`
frames the delivered `(percent, phaseLabel)` reports have pairwise
non-decreasing percents, every label is one of the recognized ordered phase
labels, and the final report is `(100, finalize)`. -/
theorem progressReports_spec (n : ℕ) :
    (ExportM.progressReports n).Pairwise (fun a b => a.1 ≤ b.1) ∧
    (∀ r ∈ ExportM.progressReports n, r.2 ∈ ExportM.phaseOrder) ∧
    (ExportM.progressReports n).getLast? = some (100, .finalizePhase) := by
  have hmono : ∀ i j : ℕ, i < j →
      (25 : ℚ) + 75 * ((i:ℚ)+1) / (n:ℚ) ≤ 25 + 75 * ((j:ℚ)+1) / (n:ℚ) := by
    intro i j hij
    rcases Nat.eq_zero_or_pos n with hn | hn
    · subst hn; simp
    · have hnq : (0:ℚ) < (n:ℚ) := by exact_mod_cast hn
      have hij75 : 75 * ((i:ℚ)+1) ≤ 75 * ((j:ℚ)+1) := by
        have : (i:ℚ) ≤ (j:ℚ) := by exact_mod_cast le_of_lt hij
        linarith
      have := (div_le_div_iff_of_pos_right hnq).mpr hij75
      linarith
  have hBlow : ∀ i : ℕ, (25:ℚ) ≤ 25 + 75 * ((i:ℚ)+1) / (n:ℚ) := by
    intro i
    have : (0:ℚ) ≤ 75 * ((i:ℚ)+1) / (n:ℚ) := by positivity
    linarith
  have hBhigh : ∀ i : ℕ, i < n →
      (25:ℚ) + 75 * ((i:ℚ)+1) / (n:ℚ) ≤ 100 := by
    intro i hi
    have hnpos : 0 < n := Nat.pos_of_ne_zero (by rintro rfl; exact Nat.not_lt_zero i hi)
    have hnq : (0:ℚ) < (n:ℚ) := by exact_mod_cast hnpos
    have hin : ((i:ℚ)+1) ≤ (n:ℚ) := by exact_mod_cast Nat.succ_le_of_lt hi
    have hdiv : 75 * ((i:ℚ)+1) / (n:ℚ) ≤ 75 := by
      rw [div_le_iff₀ hnq]
      nlinarith
    linarith
  refine ⟨?_, ?_, ?_⟩
  · unfold ExportM.progressReports
    rw [List.pairwise_append]
    refine ⟨?_, ?_, ?_⟩
    · rw [List.pairwise_append]
      refine ⟨?_, ?_, ?_⟩
      · norm_num [List.pairwise_cons]
      · rw [List.pairwise_map]
        refine List.Pairwise.imp ?_ (List.pairwise_lt_range n)
        intro a b hab
        simpa using hmono a b hab
      · intro a ha b hb
        obtain ⟨i, hi, rfl⟩ := List.mem_map.mp hb
        fin_cases ha <;> simpa using le_trans (by norm_num) (hBlow i)
    · simp
    · intro a ha c hc
      simp only [List.mem_singleton] at hc
      subst hc
      rcases List.mem_append.mp ha with hA | hB
      · fin_cases hA <;> norm_num
      · obtain ⟨i, hi, rfl⟩ := List.mem_map.mp hB
        simpa using hBhigh i (List.mem_range.mp hi)
  · intro r hr
    have hall : ∀ l : ExportM.PhaseName, l ∈ ExportM.phaseOrder := by
      intro l; cases l <;> simp [ExportM.phaseOrder]
    exact hall r.2
  · unfold ExportM.progressReports
    exact List.getLast?_concat _

/-- Witness for C7 at a two-frame session: the final report is
`(100, finalize)` and its label is recognized. -/
theorem progressReports_spec_witness :
    ((100 : ℚ), ExportM.PhaseName.finalizePhase) ∈ ExportM.progressReports 2 ∧
    ExportM.PhaseName.finalizePhase ∈ ExportM.phaseOrder ∧
    (ExportM.progressReports 2).getLast? = some (100, .finalizePhase) :=
  ⟨List.mem_append_right _ (List.mem_singleton.mpr rfl),
   (progressReports_spec 2).2.1 _
     (List.mem_append_right _ (List.mem_singleton.mpr rfl)),
   (progressReports_spec 2).2.2⟩

theorem getCache_head {K V : Type} [DecidableEq K]
    (c : ExportM.BoundedCache K V) (k : K) (v : V) (l : List (K × V))
    (h : c.entries = (k, v) :: l) :
    ExportM.getCache c k =
      (some v,
       ⟨c.capacity, (k, v) :: l.filter (fun e => decide (e.1 ≠ k))⟩) := by
  obtain ⟨cap, entries⟩ := c
  simp only at h
  subst h
  simp [ExportM.getCache, List.find?]

theorem getCache_hit_head {K V : Type} [DecidableEq K]
    (c : ExportM.BoundedCache K V) (k : K) (v : V)
    (h : (ExportM.getCache c k).1 = some v) :
    ∃ l, (ExportM.getCache c k).2.entries = (k, v) :: l := by
  unfold ExportM.getCache at h ⊢
  cases hf : c.entries.find? (fun e => decide (e.1 = k)) with
  | none => simp [hf] at h
  | some e =>
      simp only [hf] at h ⊢
      simp at h
      refine ⟨List.filter (fun x => !decide (x.1 = k)) c.entries, ?_⟩
      simp [h]

theorem putCache_head {K V : Type} [DecidableEq K]
    (c : ExportM.BoundedCache K V) (k : K) (v : V)
    (hcap : 0 < c.capacity) :
    ∃ l, (ExportM.putCache c k v).entries = (k, v) :: l := by
  obtain ⟨m, hm⟩ := Nat.exists_eq_succ_of_ne_zero (Nat.pos_iff_ne_zero.mp hcap)
  refine ⟨(c.entries.filter (fun e => decide (e.1 ≠ k))).take m, ?_⟩
  simp only [ExportM.putCache, hm, List.take_succ_cons]

theorem getCache_capacity {K V : Type} [DecidableEq K]
    (c : ExportM.BoundedCache K V) (k : K) :
    (ExportM.getCache c k).2.capacity = c.capacity := by
  unfold ExportM.getCache
  cases c.entries.find? (fun e => decide (e.1 = k)) <;> simp

theorem getCache_miss {K V : Type} [DecidableEq K]
    (c : ExportM.BoundedCache K V) (k : K)
    (h : (ExportM.getCache c k).1 = none) :
    (ExportM.getCache c k).2 = c := by
  unfold ExportM.getCache at h ⊢
  cases hf : c.entries.find? (fun e => decide (e.1 = k)) with
  | none => simp [hf]
  | some e => simp [hf] at h

theorem putCache_capacity {K V : Type} [DecidableEq K]
    (c : ExportM.BoundedCache K V) (k : K) (v : V) :
    (ExportM.putCache c k v).capacity = c.capacity := rfl

theorem requestFrame_key_heads (p : ExportM.FrameProcessor) (src : ℕ) (t : ℚ)
    (hf : 0 < p.frameCache.capacity) (ht : 0 < p.textureCache.capacity) :
    (∃ v l, (ExportM.requestFrame p src t).frameCache.entries
        = ((src, ExportM.quantize t), v) :: l) ∧
    (∃ v l, (ExportM.requestFrame p src t).textureCache.entries
        = ((src, ExportM.quantize t), v) :: l) ∧
    (ExportM.requestFrame p src t).frameCache.capacity
        = p.frameCache.capacity ∧
    (ExportM.requestFrame p src t).textureCache.capacity
        = p.textureCache.capacity := by
  unfold ExportM.requestFrame
  cases hF : (ExportM.getCache p.frameCache (src, ExportM.quantize t)).1 with
  | some v =>
      cases hT : (ExportM.getCache p.textureCache (src, ExportM.quantize t)).1 with
      | some w =>
          simp only [hF, hT]
          refine ⟨⟨v, ?_⟩, ⟨w, ?_⟩, ?_, ?_⟩
          · simpa using getCache_hit_head p.frameCache _ v hF
          · simpa using getCache_hit_head p.textureCache _ w hT
          · simp [getCache_capacity]
          · simp [getCache_capacity]
      | none =>
          simp only [hF, hT]
          refine ⟨⟨v, ?_⟩, ?_, ?_, ?_⟩
          · simpa using getCache_hit_head p.frameCache _ v hF
          · simp only [getCache_miss p.textureCache _ hT]
            obtain ⟨l, hl⟩ := putCache_head p.textureCache (src, ExportM.quantize t) p.nextId ht
            exact ⟨_, l, by simpa using hl⟩
          · simp [getCache_capacity]
          · simp [getCache_miss p.textureCache _ hT, putCache_capacity]
  | none =>
      cases hT : (ExportM.getCache p.textureCache (src, ExportM.quantize t)).1 with
      | some w =>
          simp only [hF, hT]
          refine ⟨?_, ⟨w, ?_⟩, ?_, ?_⟩
          · simp only [getCache_miss p.frameCache _ hF]
            obtain ⟨l, hl⟩ := putCache_head p.frameCache (src, ExportM.quantize t) p.nextId hf
            exact ⟨_, l, by simpa using hl⟩
          · simpa using getCache_hit_head p.textureCache _ w hT
          · simp [getCache_miss p.frameCache _ hF, putCache_capacity]
          · simp [getCache_capacity]
      | none =>
          simp only [hF, hT]
          refine ⟨?_, ?_, ?_, ?_⟩
          · simp only [getCache_miss p.frameCache _ hF]
            obtain ⟨l, hl⟩ := putCache_head p.frameCache (src, ExportM.quantize t) p.nextId hf
            exact ⟨_, l, by simpa using hl⟩
          · simp only [getCache_miss p.textureCache _ hT]
            obtain ⟨l, hl⟩ := putCache_head p.textureCache (src, ExportM.quantize t) (p.nextId + 1) ht
            exact ⟨_, l, by simpa using hl⟩
          · simp [getCache_miss p.frameCache _ hF, putCache_capacity]
          · simp [getCache_miss p.textureCache _ hT, putCache_capacity]

/-- C2: spec-modelled video frame processor — two consecutive requests
carrying the same `(source identity, quantized timestamp)` cache key, i.e.
any two raw timestamps `t1`, `t2` (equal or merely near-duplicate) with
`quantize t1 = quantize t2`: the second is served from the caches,
performing no seek, no pixel extraction and no texture build (in particular
it mints no new pixel-buffer or texture identity). -/
theorem requestFrame_second_cached (p : ExportM.FrameProcessor) (src : ℕ)
    (t1 t2 : ℚ) (hq : ExportM.quantize t1 = ExportM.quantize t2)
    (hf : 0 < p.frameCache.capacity)
    (ht : 0 < p.textureCache.capacity) :
    (ExportM.requestFrame (ExportM.requestFrame p src t1) src t2).seekCount
        = (ExportM.requestFrame p src t1).seekCount ∧
    (ExportM.requestFrame (ExportM.requestFrame p src t1) src t2).extractCount
        = (ExportM.requestFrame p src t1).extractCount ∧
    (ExportM.requestFrame
        (ExportM.requestFrame p src t1) src t2).textureBuildCount
        = (ExportM.requestFrame p src t1).textureBuildCount ∧
    (ExportM.requestFrame (ExportM.requestFrame p src t1) src t2).nextId
        = (ExportM.requestFrame p src t1).nextId := by
  obtain ⟨⟨v1, l1, h1⟩, ⟨v2, l2, h2⟩, hc1, hc2⟩ :=
    requestFrame_key_heads p src t1 hf ht
  set p1 := ExportM.requestFrame p src t1 with hp1
  rw [hq] at h1 h2
  have hg1 := getCache_head p1.frameCache _ v1 l1 h1
  have hg2 := getCache_head p1.textureCache _ v2 l2 h2
  unfold ExportM.requestFrame
  simp [hg1, hg2]

/-- Witness for C2 at two distinct near-duplicate timestamps `1/2` s and
`31/60` s, which quantize to the same key (grid cell 15). -/
theorem requestFrame_second_cached_witness :
    ((1 : ℚ)/2 ≠ 31/60 ∧
     ExportM.quantize (1/2) = ExportM.quantize (31/60) ∧
     0 < ExportM.initProcessor.frameCache.capacity ∧
     0 < ExportM.initProcessor.textureCache.capacity) ∧
    ((ExportM.requestFrame (ExportM.requestFrame ExportM.initProcessor 1 (1/2))
        1 (31/60)).seekCount
      = (ExportM.requestFrame ExportM.initProcessor 1 (1/2)).seekCount ∧
     (ExportM.requestFrame (ExportM.requestFrame ExportM.initProcessor 1 (1/2))
        1 (31/60)).extractCount
      = (ExportM.requestFrame ExportM.initProcessor 1 (1/2)).extractCount ∧
     (ExportM.requestFrame (ExportM.requestFrame ExportM.initProcessor 1 (1/2))
        1 (31/60)).textureBuildCount
      = (ExportM.requestFrame ExportM.initProcessor 1 (1/2)).textureBuildCount ∧
     (ExportM.requestFrame (ExportM.requestFrame ExportM.initProcessor 1 (1/2))
        1 (31/60)).nextId
      = (ExportM.requestFrame ExportM.initProcessor 1 (1/2)).nextId) :=
  ⟨⟨by norm_num, by norm_num [ExportM.quantize], by decide, by decide⟩,
   requestFrame_second_cached ExportM.initProcessor 1 (1/2) (31/60)
     (by norm_num [ExportM.quantize]) (by decide) (by decide)⟩

theorem filter_ne_length_lt {K V : Type} [DecidableEq K]
    (l : List (K × V)) (k : K) (h : ∃ e ∈ l, e.1 = k) :
    (l.filter (fun e => decide (e.1 ≠ k))).length < l.length := by
  induction l with
  | nil => simp at h
  | cons a tl ih =>
      by_cases ha : a.1 = k
      · simp only [List.filter_cons, ha]
        simp
        exact Nat.lt_succ_of_le (List.length_filter_le _ tl)
      · obtain ⟨e, he, hek⟩ := h
        rcases List.mem_cons.mp he with rfl | he2
        · exact absurd hek ha
        · simp only [List.filter_cons]
          simp [ha]
          simpa using ih ⟨e, he2, hek⟩

theorem putCache_length_le {K V : Type} [DecidableEq K]
    (c : ExportM.BoundedCache K V) (k : K) (v : V) :
    (ExportM.putCache c k v).entries.length ≤ c.capacity := by
  simp [ExportM.putCache]

theorem getCache_length_le {K V : Type} [DecidableEq K]
    (c : ExportM.BoundedCache K V) (k : K)
    (h : c.entries.length ≤ c.capacity) :
    (ExportM.getCache c k).2.entries.length ≤ c.capacity := by
  unfold ExportM.getCache
  cases hf : c.entries.find? (fun e => decide (e.1 = k)) with
  | none => simpa
  | some e =>
      simp only [hf]
      have hmem := List.mem_of_find?_eq_some hf
      have hpred := List.find?_some hf
      have hlt : (c.entries.filter (fun e => decide (e.1 ≠ k))).length
          < c.entries.length :=
        filter_ne_length_lt c.entries k ⟨e, hmem, by simpa using hpred⟩
      simp at hlt ⊢
      omega

theorem requestFrame_capacities (p : ExportM.FrameProcessor) (src : ℕ)
    (t : ℚ) :
    (ExportM.requestFrame p src t).frameCache.capacity
        = p.frameCache.capacity ∧
    (ExportM.requestFrame p src t).textureCache.capacity
        = p.textureCache.capacity := by
  unfold ExportM.requestFrame
  cases hF : (ExportM.getCache p.frameCache (src, ExportM.quantize t)).1 with
  | some v =>
      cases hT : (ExportM.getCache p.textureCache (src, ExportM.quantize t)).1 with
      | some w => simp [hF, hT, getCache_capacity]
      | none => simp [hF, hT, putCache_capacity, getCache_capacity]
  | none =>
      cases hT : (ExportM.getCache p.textureCache (src, ExportM.quantize t)).1 with
      | some w => simp [hF, hT, putCache_capacity, getCache_capacity]
      | none => simp [hF, hT, putCache_capacity, getCache_capacity]

theorem requestFrame_lengths (p : ExportM.FrameProcessor) (src : ℕ) (t : ℚ)
    (h1 : p.frameCache.entries.length ≤ p.frameCache.capacity)
    (h2 : p.textureCache.entries.length ≤ p.textureCache.capacity) :
    (ExportM.requestFrame p src t).frameCache.entries.length
        ≤ p.frameCache.capacity ∧
    (ExportM.requestFrame p src t).textureCache.entries.length
        ≤ p.textureCache.capacity := by
  unfold ExportM.requestFrame
  cases hF : (ExportM.getCache p.frameCache (src, ExportM.quantize t)).1 with
  | some v =>
      cases hT : (ExportM.getCache p.textureCache (src, ExportM.quantize t)).1 with
      | some w =>
          simp only [hF, hT]
          exact ⟨by simpa using getCache_length_le p.frameCache _ h1,
                 by simpa using getCache_length_le p.textureCache _ h2⟩
      | none =>
          simp only [hF, hT]
          refine ⟨by simpa using getCache_length_le p.frameCache _ h1, ?_⟩
          simp only [getCache_miss p.textureCache _ hT]
          simpa using putCache_length_le p.textureCache (src, ExportM.quantize t) p.nextId
  | none =>
      cases hT : (ExportM.getCache p.textureCache (src, ExportM.quantize t)).1 with
      | some w =>
          simp only [hF, hT]
          refine ⟨?_, by simpa using getCache_length_le p.textureCache _ h2⟩
          simp only [getCache_miss p.frameCache _ hF]
          simpa using putCache_length_le p.frameCache (src, ExportM.quantize t) p.nextId
      | none =>
          simp only [hF, hT]
          constructor
          · simp only [getCache_miss p.frameCache _ hF]
            simpa using putCache_length_le p.frameCache (src, ExportM.quantize t) p.nextId
          · simp only [getCache_miss p.textureCache _ hT]
            simpa using putCache_length_le p.textureCache (src, ExportM.quantize t) (p.nextId + 1)

theorem runRequests_inv (reqs : List (ℕ × ℚ)) :
    ∀ p : ExportM.FrameProcessor,
      p.frameCache.entries.length ≤ p.frameCache.capacity →
      p.textureCache.entries.length ≤ p.textureCache.capacity →
      (ExportM.runRequests reqs p).frameCache.capacity
          = p.frameCache.capacity ∧
      (ExportM.runRequests reqs p).textureCache.capacity
          = p.textureCache.capacity ∧
      (ExportM.runRequests reqs p).frameCache.entries.length
          ≤ p.frameCache.capacity ∧
      (ExportM.runRequests reqs p).textureCache.entries.length
          ≤ p.textureCache.capacity := by
  induction reqs with
  | nil =>
      intro p h1 h2
      exact ⟨rfl, rfl, h1, h2⟩
  | cons r rs ih =>
      intro p h1 h2
      have hcap := requestFrame_capacities p r.1 r.2
      have hlen := requestFrame_lengths p r.1 r.2 h1 h2
      have hstep := ih (ExportM.requestFrame p r.1 r.2)
        (by rw [hcap.1]; exact hlen.1) (by rw [hcap.2]; exact hlen.2)
      have hrw : ExportM.runRequests (r :: rs) p
          = ExportM.runRequests rs (ExportM.requestFrame p r.1 r.2) := rfl
      rw [hrw]
      refine ⟨?_, ?_, ?_, ?_⟩
      · rw [hstep.1, hcap.1]
      · rw [hstep.2.1, hcap.2]
      · calc (ExportM.runRequests rs (ExportM.requestFrame p r.1 r.2)).frameCache.entries.length
          ≤ (ExportM.requestFrame p r.1 r.2).frameCache.capacity := hstep.2.2.1
        _ = p.frameCache.capacity := hcap.1
      · calc (ExportM.runRequests rs (ExportM.requestFrame p r.1 r.2)).textureCache.entries.length
          ≤ (ExportM.requestFrame p r.1 r.2).textureCache.capacity := hstep.2.2.2
        _ = p.textureCache.capacity := hcap.2

theorem filter_ne_of_not_mem {K V : Type} [DecidableEq K]
    (l : List (K × V)) (k : K) (h : k ∉ l.map Prod.fst) :
    l.filter (fun e => decide (e.1 ≠ k)) = l := by
  rw [List.filter_eq_self]
  intro e he
  simp only [decide_eq_true_eq]
  intro hek
  exact h (hek ▸ List.mem_map_of_mem Prod.fst he)

theorem putCache_full_fresh {K V : Type} [DecidableEq K]
    (c : ExportM.BoundedCache K V) (k : K) (v : V)
    (hfull : c.entries.length = c.capacity) (hpos : 0 < c.capacity)
    (hfresh : k ∉ c.entries.map Prod.fst) :
    (ExportM.putCache c k v).entries = (k, v) :: c.entries.dropLast := by
  unfold ExportM.putCache
  rw [filter_ne_of_not_mem _ _ hfresh]
  obtain ⟨m, hm⟩ := Nat.exists_eq_succ_of_ne_zero (Nat.pos_iff_ne_zero.mp hpos)
  simp only [hm, List.take_succ_cons]
  congr 1
  rw [List.dropLast_eq_take, hfull, hm]
  norm_num

theorem getLast_key_not_mem_dropLast {K V : Type} (l : List (K × V))
    (hnd : (l.map Prod.fst).Nodup) (hne : l ≠ []) :
    (l.getLast hne).1 ∉ l.dropLast.map Prod.fst := by
  have hmne : l.map Prod.fst ≠ [] := by simpa using hne
  have hsplit := List.dropLast_append_getLast hmne
  rw [← hsplit] at hnd
  have hdisj := (List.nodup_append.mp hnd).2.2
  have hgl : (l.map Prod.fst).getLast hmne = (l.getLast hne).1 := by
    rw [List.getLast_map]
  rw [List.map_dropLast]
  intro hmem
  exact hdisj hmem (by simp [hgl])

theorem putCache_full_evicts_lru {K V : Type} [DecidableEq K]
    (c : ExportM.BoundedCache K V) (k : K) (v : V)
    (hnd : (c.entries.map Prod.fst).Nodup)
    (hfull : c.entries.length = c.capacity) (hpos : 0 < c.capacity)
    (hfresh : k ∉ c.entries.map Prod.fst) :
    (ExportM.putCache c k v).entries = (k, v) :: c.entries.dropLast ∧
    ∃ hne : c.entries ≠ [],
      (c.entries.getLast hne).1
        ∉ (ExportM.putCache c k v).entries.map Prod.fst := by
  have heq := putCache_full_fresh c k v hfull hpos hfresh
  have hne : c.entries ≠ [] := by
    intro h0
    rw [h0] at hfull
    simp at hfull
    omega
  refine ⟨heq, hne, ?_⟩
  rw [heq]
  simp only [List.map_cons, List.mem_cons]
  rintro (hk | hdl)
  · exact hfresh (hk ▸ List.mem_map_of_mem Prod.fst (List.getLast_mem hne))
  · exact getLast_key_not_mem_dropLast c.entries hnd hne hdl

theorem filter_ne_length_of_nodup {K V : Type} [DecidableEq K]
    (l : List (K × V)) (k : K)
    (hnd : (l.map Prod.fst).Nodup) (hk : k ∈ l.map Prod.fst) :
    (l.filter (fun e => decide (e.1 ≠ k))).length + 1 = l.length := by
  induction l with
  | nil => simp at hk
  | cons a tl ih =>
      rw [List.map_cons, List.nodup_cons] at hnd
      rw [List.map_cons] at hk
      by_cases ha : a.1 = k
      · have htl : tl.filter (fun e => decide (e.1 ≠ k)) = tl :=
          filter_ne_of_not_mem tl k (ha ▸ hnd.1)
        have hstep : (a :: tl).filter (fun e => decide (e.1 ≠ k))
            = tl.filter (fun e => decide (e.1 ≠ k)) := by
          rw [List.filter_cons]
          simp [ha]
        rw [hstep, htl]
        simp
      · have hk2 : k ∈ tl.map Prod.fst := by
          rcases List.mem_cons.mp hk with h | h
          · exact absurd h.symm ha
          · exact h
        have hrec := ih hnd.2 hk2
        have hstep : (a :: tl).filter (fun e => decide (e.1 ≠ k))
            = a :: tl.filter (fun e => decide (e.1 ≠ k)) := by
          rw [List.filter_cons]
          simp [ha]
        rw [hstep]
        simp only [List.length_cons]
        omega

theorem access_then_insert_evicts_other {K V : Type} [DecidableEq K]
    (c : ExportM.BoundedCache K V) (k k' : K) (v' : V)
    (hnd : (c.entries.map Prod.fst).Nodup)
    (hk : k ∈ c.entries.map Prod.fst)
    (hfull : c.entries.length = c.capacity)
    (hcap : 2 ≤ c.capacity)
    (hk' : k' ∉ c.entries.map Prod.fst) :
    k ∈ (ExportM.putCache (ExportM.getCache c k).2 k' v').entries.map
        Prod.fst ∧
    (ExportM.putCache (ExportM.getCache c k).2 k' v').entries.length
        = c.capacity ∧
    ∃ hne : (ExportM.getCache c k).2.entries ≠ [],
      ((ExportM.getCache c k).2.entries.getLast hne).1 ≠ k ∧
      ((ExportM.getCache c k).2.entries.getLast hne).1
        ∉ (ExportM.putCache (ExportM.getCache c k).2 k' v').entries.map
            Prod.fst := by
  obtain ⟨e, hemem, hek⟩ : ∃ e ∈ c.entries, e.1 = k := by
    obtain ⟨e, hemem, hek⟩ := List.mem_map.mp hk
    exact ⟨e, hemem, hek⟩
  have hfind : ∃ e2, c.entries.find? (fun x => decide (x.1 = k)) = some e2 := by
    cases hres : c.entries.find? (fun x => decide (x.1 = k)) with
    | none =>
        exfalso
        have := List.find?_eq_none.mp hres e hemem
        simp [hek] at this
    | some e2 => exact ⟨e2, rfl⟩
  obtain ⟨e2, he2⟩ := hfind
  have hc1 : (ExportM.getCache c k).2 =
      ⟨c.capacity,
       (k, e2.2) :: c.entries.filter (fun x => decide (x.1 ≠ k))⟩ := by
    unfold ExportM.getCache
    simp [he2]
  set rest := c.entries.filter (fun x => decide (x.1 ≠ k)) with hrest
  have hrestlen : rest.length + 1 = c.entries.length :=
    filter_ne_length_of_nodup c.entries k hnd hk
  have hrestne : rest ≠ [] := by
    intro h0
    rw [h0] at hrestlen
    simp at hrestlen
    omega
  have hrestnok : k ∉ rest.map Prod.fst := by
    intro hmem
    obtain ⟨x, hxmem, hxk⟩ := List.mem_map.mp hmem
    have := List.of_mem_filter hxmem
    simp [hxk] at this
  have hrestnd : (rest.map Prod.fst).Nodup :=
    hnd.sublist (List.Sublist.map Prod.fst (List.filter_sublist _))
  have hrestsub : (rest.map Prod.fst) ⊆ (c.entries.map Prod.fst) :=
    (List.Sublist.map Prod.fst (List.filter_sublist _)).subset
  have hc1nd : (((ExportM.getCache c k).2).entries.map Prod.fst).Nodup := by
    rw [hc1]
    show (((k, e2.2) :: rest).map Prod.fst).Nodup
    rw [List.map_cons, List.nodup_cons]
    exact ⟨hrestnok, hrestnd⟩
  have hc1len : ((ExportM.getCache c k).2).entries.length = c.capacity := by
    rw [hc1]
    show ((k, e2.2) :: rest).length = c.capacity
    simp only [List.length_cons]
    omega
  have hc1cap : ((ExportM.getCache c k).2).capacity = c.capacity :=
    getCache_capacity c k
  have hk'c1 : k' ∉ ((ExportM.getCache c k).2).entries.map Prod.fst := by
    rw [hc1]
    show k' ∉ ((k, e2.2) :: rest).map Prod.fst
    rw [List.map_cons]
    intro hmem
    rcases List.mem_cons.mp hmem with h | h
    · exact hk' (h ▸ hk)
    · exact hk' (hrestsub h)
  have hput := putCache_full_evicts_lru ((ExportM.getCache c k).2) k' v'
    hc1nd (by rw [hc1cap]; exact hc1len) (by rw [hc1cap]; omega) hk'c1
  obtain ⟨hputeq, hne, hlast⟩ := hput
  have hputlen :
      (ExportM.putCache (ExportM.getCache c k).2 k' v').entries.length
        = c.capacity := by
    rw [hputeq]
    simp only [List.length_cons, List.length_dropLast]
    rw [hc1len]
    omega
  refine ⟨?_, hputlen, hne, ?_, ?_⟩
  · rw [hputeq, List.map_cons]
    refine List.mem_cons.mpr (Or.inr ?_)
    have hdl : ((ExportM.getCache c k).2).entries.dropLast
        = (k, e2.2) :: rest.dropLast := by
      rw [hc1]
      show ((k, e2.2) :: rest).dropLast = (k, e2.2) :: rest.dropLast
      exact List.dropLast_cons_of_ne_nil hrestne
    rw [hdl, List.map_cons]
    exact List.mem_cons_self _ _
  · have heq : ((ExportM.getCache c k).2).entries = (k, e2.2) :: rest := by
      rw [hc1]
    have hgl : ((ExportM.getCache c k).2).entries.getLast hne
        = rest.getLast hrestne := by
      rw [List.getLast_congr hne (by simp) heq]
      exact List.getLast_cons hrestne
    rw [hgl]
    have hp := List.of_mem_filter (List.getLast_mem hrestne)
    simpa using hp
  · exact hlast

/-- C1: spec-modelled bounded LRU caches — (a) any sequence of frame
requests leaves the frame cache with at most 10 entries and the texture
cache with at most 5; (b) inserting a fresh key into a full cache evicts
exactly the least-recently-used entry; (c) re-accessing an entry first marks
it most-recently-used, so the subsequent insert keeps it and evicts a
different entry (the least-recently-used one after the access). -/
theorem cache_bounds_and_lru :
    (∀ reqs : List (ℕ × ℚ),
      (ExportM.runRequests reqs
          ExportM.initProcessor).frameCache.entries.length ≤ 10 ∧
      (ExportM.runRequests reqs
          ExportM.initProcessor).textureCache.entries.length ≤ 5) ∧
    (∀ (c : ExportM.BoundedCache (ℕ × ℤ) ℕ) (k : ℕ × ℤ) (v : ℕ),
      (c.entries.map Prod.fst).Nodup →
      c.entries.length = c.capacity → 0 < c.capacity →
      k ∉ c.entries.map Prod.fst →
      (ExportM.putCache c k v).entries = (k, v) :: c.entries.dropLast ∧
      ∃ hne : c.entries ≠ [],
        (c.entries.getLast hne).1
          ∉ (ExportM.putCache c k v).entries.map Prod.fst) ∧
    (∀ (c : ExportM.BoundedCache (ℕ × ℤ) ℕ) (k k' : ℕ × ℤ) (v' : ℕ),
      (c.entries.map Prod.fst).Nodup →
      k ∈ c.entries.map Prod.fst →
      c.entries.length = c.capacity →
      2 ≤ c.capacity →
      k' ∉ c.entries.map Prod.fst →
      k ∈ (ExportM.putCache (ExportM.getCache c k).2 k' v').entries.map
          Prod.fst ∧
      (ExportM.putCache (ExportM.getCache c k).2 k' v').entries.length
          = c.capacity ∧
      ∃ hne : (ExportM.getCache c k).2.entries ≠ [],
        ((ExportM.getCache c k).2.entries.getLast hne).1 ≠ k ∧
        ((ExportM.getCache c k).2.entries.getLast hne).1
          ∉ (ExportM.putCache (ExportM.getCache c k).2 k' v').entries.map
              Prod.fst) := by
  refine ⟨?_, ?_, ?_⟩
  · intro reqs
    have h := runRequests_inv reqs ExportM.initProcessor
      (by decide) (by decide)
    have hf10 : ExportM.initProcessor.frameCache.capacity = 10 := rfl
    have ht5 : ExportM.initProcessor.textureCache.capacity = 5 := rfl
    exact ⟨hf10 ▸ h.2.2.1, ht5 ▸ h.2.2.2⟩
  · intro c k v h1 h2 h3 h4
    exact putCache_full_evicts_lru c k v h1 h2 h3 h4
  · intro c k k' v' h1 h2 h3 h4 h5
    exact access_then_insert_evicts_other c k k' v' h1 h2 h3 h4 h5

/-- Witness for C1: a one-request sequence, and a concrete full cache of
capacity 2 holding keys `(1,0)` and `(2,0)` — inserting the fresh key
`(3,0)` directly evicts the LRU entry, while accessing `(1,0)` first makes
the subsequent insert evict a different entry. -/
theorem cache_bounds_and_lru_witness :
    ((ExportM.runRequests [(1, 0)]
        ExportM.initProcessor).frameCache.entries.length ≤ 10 ∧
     (ExportM.runRequests [(1, 0)]
        ExportM.initProcessor).textureCache.entries.length ≤ 5) ∧
    ((ExportM.putCache
        ({ capacity := 2, entries := [((1, 0), 10), ((2, 0), 20)] } :
          ExportM.BoundedCache (ℕ × ℤ) ℕ) (3, 0) 30).entries
        = ((3, 0), 30) ::
          ({ capacity := 2, entries := [((1, 0), 10), ((2, 0), 20)] } :
            ExportM.BoundedCache (ℕ × ℤ) ℕ).entries.dropLast ∧
     ∃ hne : ({ capacity := 2, entries := [((1, 0), 10), ((2, 0), 20)] } :
          ExportM.BoundedCache (ℕ × ℤ) ℕ).entries ≠ [],
       (({ capacity := 2, entries := [((1, 0), 10), ((2, 0), 20)] } :
            ExportM.BoundedCache (ℕ × ℤ) ℕ).entries.getLast hne).1
         ∉ (ExportM.putCache
              ({ capacity := 2, entries := [((1, 0), 10), ((2, 0), 20)] } :
                ExportM.BoundedCache (ℕ × ℤ) ℕ) (3, 0) 30).entries.map
              Prod.fst) ∧
    ((1, 0) ∈ (ExportM.putCache
        (ExportM.getCache
          ({ capacity := 2, entries := [((1, 0), 10), ((2, 0), 20)] } :
            ExportM.BoundedCache (ℕ × ℤ) ℕ) (1, 0)).2 (3, 0) 30).entries.map
        Prod.fst ∧
     (ExportM.putCache
        (ExportM.getCache
          ({ capacity := 2, entries := [((1, 0), 10), ((2, 0), 20)] } :
            ExportM.BoundedCache (ℕ × ℤ) ℕ) (1, 0)).2 (3, 0) 30).entries.length
        = ({ capacity := 2, entries := [((1, 0), 10), ((2, 0), 20)] } :
            ExportM.BoundedCache (ℕ × ℤ) ℕ).capacity ∧
     ∃ hne : (ExportM.getCache
          ({ capacity := 2, entries := [((1, 0), 10), ((2, 0), 20)] } :
            ExportM.BoundedCache (ℕ × ℤ) ℕ) (1, 0)).2.entries ≠ [],
       ((ExportM.getCache
            ({ capacity := 2, entries := [((1, 0), 10), ((2, 0), 20)] } :
              ExportM.BoundedCache (ℕ × ℤ) ℕ) (1, 0)).2.entries.getLast
            hne).1 ≠ (1, 0) ∧
       ((ExportM.getCache
            ({ capacity := 2, entries := [((1, 0), 10), ((2, 0), 20)] } :
              ExportM.BoundedCache (ℕ × ℤ) ℕ) (1, 0)).2.entries.getLast
            hne).1
         ∉ (ExportM.putCache
              (ExportM.getCache
                ({ capacity := 2, entries := [((1, 0), 10), ((2, 0), 20)] } :
                  ExportM.BoundedCache (ℕ × ℤ) ℕ) (1, 0)).2 (3, 0)
              30).entries.map Prod.fst) :=
  ⟨cache_bounds_and_lru.1 [(1, 0)],
   cache_bounds_and_lru.2.1 _ (3, 0) 30 (by decide) (by decide) (by decide)
     (by decide),
   cache_bounds_and_lru.2.2 _ (1, 0) (3, 0) 30 (by decide) (by decide)
     (by decide) (by decide) (by decide)⟩

theorem restoreClip_of_record_none (c : ExportM.ClipState)
    (h : c.record = none) : ExportM.restoreClip c = c := by
  unfold ExportM.restoreClip
  rw [h]

theorem restoreClip_idem (c : ExportM.ClipState) :
    ExportM.restoreClip (ExportM.restoreClip c) = ExportM.restoreClip c := by
  cases h : c.record <;> simp [ExportM.restoreClip, h]

theorem substituteClip_idem (t : ℕ) (c : ExportM.ClipState) :
    ExportM.substituteClip t (ExportM.substituteClip t c)
      = ExportM.substituteClip t c := by
  obtain ⟨tex, srcr, susp, rec, vid⟩ := c
  cases vid <;> cases rec <;> simp [ExportM.substituteClip]

theorem restore_substitute (t : ℕ) (c : ExportM.ClipState)
    (h1 : c.record = none) (h2 : c.suspendUpdates = false) :
    ExportM.restoreClip (ExportM.substituteClip t c) = c := by
  obtain ⟨tex, srcr, susp, rec, vid⟩ := c
  simp only at h1 h2
  subst h1 h2
  cases vid <;> simp [ExportM.substituteClip, ExportM.restoreClip]

theorem runPhases_fields (staticTex : ℕ) (oracle : ExportM.PhaseName → Bool)
    (ps : List ExportM.PhaseName) :
    ∀ s : ExportM.SessionState,
      (ExportM.runPhases staticTex oracle ps s).cleanupRuns = s.cleanupRuns ∧
      (ExportM.runPhases staticTex oracle ps s).savedState = s.savedState ∧
      (ExportM.runPhases staticTex oracle ps s).editorObservable
          = s.editorObservable ∧
      ((ExportM.runPhases staticTex oracle ps s).clips = s.clips ∨
       (ExportM.runPhases staticTex oracle ps s).clips
          = s.clips.map (ExportM.substituteClip staticTex)) := by
  induction ps with
  | nil => intro s; exact ⟨rfl, rfl, rfl, Or.inl rfl⟩
  | cons p ps ih =>
      intro s
      by_cases hor : oracle p = true
      · have hstep : ExportM.runPhases staticTex oracle (p :: ps) s
            = ExportM.runPhases staticTex oracle ps
                (ExportM.phaseEffect staticTex p s) := by
          simp [ExportM.runPhases, hor]
        rw [hstep]
        have heff := ih (ExportM.phaseEffect staticTex p s)
        cases p with
        | init => exact heff
        | config => exact heff
        | videoPrep => exact heff
        | outputSetup => exact heff
        | audioPhase => exact heff
        | finalizePhase => exact heff
        | frameLoop =>
            rcases heff.2.2.2 with h | h
            · exact ⟨heff.1, heff.2.1, heff.2.2.1, Or.inr h⟩
            · refine ⟨heff.1, heff.2.1, heff.2.2.1, Or.inr ?_⟩
              have hcollapse :
                  (s.clips.map (ExportM.substituteClip staticTex)).map
                      (ExportM.substituteClip staticTex)
                    = s.clips.map (ExportM.substituteClip staticTex) := by
                rw [List.map_map]
                exact List.map_congr_left
                  (fun c _ => substituteClip_idem staticTex c)
              exact h.trans hcollapse
      · have hstep : ExportM.runPhases staticTex oracle (p :: ps) s = s := by
          simp [ExportM.runPhases, hor]
        rw [hstep]
        exact ⟨rfl, rfl, rfl, Or.inl rfl⟩

/-- C4: spec-modelled export session — on every termination path (all
success/failure patterns of the phases, encoded by `oracle`) the scoped
cleanup runs exactly once before control returns: it restores the saved
editor state, clears export mode, removes the progress surface, resumes
playback updates, and restores every substituted clip (so a session started
from clean clips ends with exactly its original clips); repeated
restoration calls are no-ops. -/
theorem runSession_cleanup_once (staticTex : ℕ)
    (oracle : ExportM.PhaseName → Bool) (s : ExportM.SessionState)
    (hclean : ∀ c ∈ s.clips, c.record = none ∧ c.suspendUpdates = false) :
    (ExportM.runSession staticTex oracle s).cleanupRuns = s.cleanupRuns + 1 ∧
    (ExportM.runSession staticTex oracle s).editorObservable
        = s.editorObservable ∧
    (ExportM.runSession staticTex oracle s).exportMode = false ∧
    (ExportM.runSession staticTex oracle s).progressSurface = false ∧
    (ExportM.runSession staticTex oracle s).playbackPaused = false ∧
    (ExportM.runSession staticTex oracle s).clips = s.clips ∧
    (∀ c : ExportM.ClipState,
      ExportM.restoreClip (ExportM.restoreClip c) = ExportM.restoreClip c) := by
  have hrp := runPhases_fields staticTex oracle ExportM.phaseOrder
    (ExportM.acceptSession s)
  refine ⟨?_, ?_, rfl, rfl, rfl, ?_, fun c => restoreClip_idem c⟩
  · show (ExportM.cleanup _).cleanupRuns = s.cleanupRuns + 1
    simp only [ExportM.cleanup]
    rw [hrp.1]
    rfl
  · show (ExportM.cleanup _).editorObservable = s.editorObservable
    simp only [ExportM.cleanup]
    rw [hrp.2.1]
    rfl
  · show (ExportM.cleanup _).clips = s.clips
    simp only [ExportM.cleanup]
    rcases hrp.2.2.2 with h | h
    · rw [h]
      have hid : ∀ c ∈ s.clips, ExportM.restoreClip c = c :=
        fun c hc => restoreClip_of_record_none c (hclean c hc).1
      calc (ExportM.acceptSession s).clips.map ExportM.restoreClip
          = s.clips.map ExportM.restoreClip := rfl
        _ = s.clips.map (fun c => c) := List.map_congr_left hid
        _ = s.clips := List.map_id' s.clips
    · rw [h]
      have hpt : ∀ c ∈ s.clips,
          (ExportM.restoreClip ∘ ExportM.substituteClip staticTex) c = c :=
        fun c hc =>
          restore_substitute staticTex c (hclean c hc).1 (hclean c hc).2
      calc ((ExportM.acceptSession s).clips.map
              (ExportM.substituteClip staticTex)).map ExportM.restoreClip
          = (s.clips.map (ExportM.substituteClip staticTex)).map
              ExportM.restoreClip := rfl
        _ = s.clips.map
              (ExportM.restoreClip ∘ ExportM.substituteClip staticTex) :=
            List.map_map _ _ _
        _ = s.clips.map (fun c => c) :=
            List.map_congr_left (fun c hc => hpt c hc)
        _ = s.clips := List.map_id' s.clips

/-- Witness for C4: a one-clip session in which every phase succeeds. -/
theorem runSession_cleanup_once_witness :
    (∀ c ∈ ({ editorObservable := 3, savedState := none, exportMode := false,
              progressSurface := false, playbackPaused := false,
              clips := [{ textureRef := 1, sourceRef := 2,
                          suspendUpdates := false, record := none,
                          isVideo := true }],
              cleanupRuns := 0 } : ExportM.SessionState).clips,
        c.record = none ∧ c.suspendUpdates = false) ∧
    ((ExportM.runSession 7 (fun _ => true)
        { editorObservable := 3, savedState := none, exportMode := false,
          progressSurface := false, playbackPaused := false,
          clips := [{ textureRef := 1, sourceRef := 2,
                      suspendUpdates := false, record := none,
                      isVideo := true }],
          cleanupRuns := 0 }).cleanupRuns = 0 + 1 ∧
     (ExportM.runSession 7 (fun _ => true)
        { editorObservable := 3, savedState := none, exportMode := false,
          progressSurface := false, playbackPaused := false,
          clips := [{ textureRef := 1, sourceRef := 2,
                      suspendUpdates := false, record := none,
                      isVideo := true }],
          cleanupRuns := 0 }).clips
       = [{ textureRef := 1, sourceRef := 2, suspendUpdates := false,
            record := none, isVideo := true }]) :=
  ⟨by decide,
   (runSession_cleanup_once 7 (fun _ => true) _ (by decide)).1,
   (runSession_cleanup_once 7 (fun _ => true) _ (by decide)).2.2.2.2.2.1⟩
